import Mathlib

/-!
Verification of the Notion-to-Astro markdown exporter.

Go strings are modelled as lists of Unicode code points (`List Char`),
matching Go's rune-level view of text.  Pure functions of the program are
translated directly; external effects (the Notion API fetch, image download,
file writes) appear as explicit parameters.
-/

namespace NotionToAstro

/-- A Go string, seen as its sequence of runes. -/
abbrev GoStr := List Char

/-- Whitespace as recognised by Go's `unicode.IsSpace` (used by
`strings.TrimSpace`): ASCII space characters plus the Unicode
White_Space code points. -/
def isGoSpace (c : Char) : Bool :=
  c = ' ' || c = '\t' || c = '\n' || c = '\u000b' || c = '\u000c' || c = '\r' ||
  c = '\u0085' || c = '\u00a0' || c = '\u1680' ||
  ('\u2000' ≤ c && c ≤ '\u200a') ||
  c = '\u2028' || c = '\u2029' || c = '\u202f' || c = '\u205f' || c = '\u3000'

/-- Go's `strings.TrimSpace`: drop leading and trailing whitespace. -/
def trimSpace (s : GoStr) : GoStr :=
  ((s.dropWhile isGoSpace).reverse.dropWhile isGoSpace).reverse

/-- Go's `strings.Split` with a one-character separator. -/
def splitChar (sep : Char) : GoStr → List GoStr
  | [] => [[]]
  | c :: cs =>
    if c = sep then [] :: splitChar sep cs
    else
      match splitChar sep cs with
      | [] => [[c]]
      | p :: ps => (c :: p) :: ps

/-- Go's `strings.Join` with a one-character separator. -/
def joinChar (sep : Char) : List GoStr → GoStr
  | [] => []
  | [x] => x
  | x :: xs => x ++ sep :: joinChar sep xs

/-- The frontmatter delimiter line `---`. -/
def dashLine : GoStr := ['-', '-', '-']

/-- The guard `i > 0 && strings.TrimSpace(lines[i-1]) == "---"` of
`processEmptyLines`, with `prev` the previous line of the input
(`none` at the first line). -/
def isDashPrev : Option GoStr → Bool
  | some p => decide (trimSpace p = dashLine)
  | none => false

/-- The line-processing loop of `processEmptyLines`: `prev` is the previous
input line, `cnt` the running count of consecutive blank lines. -/
def processEmptyLinesLoop (prev : Option GoStr) (cnt : Nat) :
    List GoStr → List GoStr
  | [] => []
  | l :: ls =>
    if trimSpace l = [] then
      if cnt + 1 = 1 then
        if isDashPrev prev then
          l :: processEmptyLinesLoop (some l) (cnt + 1) ls
        else
          processEmptyLinesLoop (some l) (cnt + 1) ls
      else if cnt + 1 = 2 then
        l :: processEmptyLinesLoop (some l) (cnt + 1) ls
      else
        processEmptyLinesLoop (some l) (cnt + 1) ls
    else
      l :: processEmptyLinesLoop (some l) 0 ls

/-- `processEmptyLines` from the source: split on newlines, walk the lines
collapsing blank runs, join back with newlines. -/
def processEmptyLines (content : GoStr) : GoStr :=
  joinChar '\n' (processEmptyLinesLoop none 0 (splitChar '\n' content))

example :
    processEmptyLines "a\n\n\nb".toList = "a\n\nb".toList := by decide

example :
    processEmptyLines "a\n\nb".toList = "a\nb".toList := by decide

example :
    processEmptyLines "---\nt\n---\n\nx\n\ny".toList
      = "---\nt\n---\n\nx\ny".toList := by decide

/-- Attempt to match the regular expression of
`convertMarkdownLinksToPlainText`, namely
«`[` [^\]]+ `]` `(` [^)]+ `)`», at the start of the input.
On success, return the captured link text and the remaining input. -/
def tryMatchLink : GoStr → Option (GoStr × GoStr)
  | '[' :: t =>
    match t.takeWhile (fun c => c != ']'), t.dropWhile (fun c => c != ']') with
    | _ :: _, ']' :: '(' :: u =>
      match u.takeWhile (fun c => c != ')'), u.dropWhile (fun c => c != ')') with
      | _ :: _, ')' :: v => some (t.takeWhile (fun c => c != ']'), v)
      | _, _ => none
    | _, _ => none
  | _ => none

theorem dropWhile_length_le {α : Type} (p : α → Bool) (l : List α) :
    (l.dropWhile p).length ≤ l.length := by
  induction l with
  | nil => simp
  | cons c cs ih =>
    by_cases h : p c
    · simp only [List.dropWhile_cons, h, if_true, List.length_cons]
      omega
    · simp [List.dropWhile_cons, h]

theorem tryMatchLink_length : ∀ {s txt rest : GoStr},
    tryMatchLink s = some (txt, rest) → rest.length < s.length := by
  intro s txt rest h
  unfold tryMatchLink at h
  split at h
  case h_1 t =>
    split at h
    case h_1 u _ heq =>
      have h1 : (t.dropWhile (fun c => c != ']')).length ≤ t.length :=
        dropWhile_length_le _ t
      rw [heq] at h1
      split at h
      case h_1 v _ heq2 =>
        have h2 : (u.dropWhile (fun c => c != ')')).length ≤ u.length :=
          dropWhile_length_le _ u
        rw [heq2] at h2
        have hv : rest = v := by
          simp only [Option.some.injEq, Prod.mk.injEq] at h
          exact h.2.symm
        subst hv
        simp only [List.length_cons] at h1 h2 ⊢
        omega
      case h_2 => exact absurd h (by simp)
    case h_2 => exact absurd h (by simp)
  case h_2 => exact absurd h (by simp)

/-- The recursion of `convertMarkdownLinksToPlainText`, driven by a fuel
parameter so that it is structurally recursive (one unit of fuel per
character position; a match consumes at least one character, so fuel equal
to the input length is always enough — see `convertMarkdownLinksAux_eq`). -/
def convertMarkdownLinksAux : Nat → GoStr → GoStr
  | 0, s => s
  | _, [] => []
  | fuel + 1, c :: cs =>
    match tryMatchLink (c :: cs) with
    | some (txt, rest) => txt ++ convertMarkdownLinksAux fuel rest
    | none => c :: convertMarkdownLinksAux fuel cs

/-- `convertMarkdownLinksToPlainText` from the source: Go's
`re.ReplaceAllString(text, "$1")` for the pattern `\[([^\]]+)\]\([^)]+\)` —
scan left to right, replace each (non-overlapping, leftmost) match by its
captured link-text group, copy all other characters unchanged. -/
def convertMarkdownLinksToPlainText (s : GoStr) : GoStr :=
  convertMarkdownLinksAux s.length s

/-- Fuel irrelevance: any fuel at least the input length gives the same
result, so `convertMarkdownLinksToPlainText` computes the full scan. -/
theorem convertMarkdownLinksAux_eq :
    ∀ f g s, s.length ≤ f → s.length ≤ g →
      convertMarkdownLinksAux f s = convertMarkdownLinksAux g s := by
  intro f
  induction f using Nat.strong_induction_on with
  | _ f ih =>
    intro g s hf hg
    match s, f, g with
    | [], 0, g => cases g <;> rfl
    | [], f + 1, g => cases g <;> rfl
    | c :: cs, f + 1, g + 1 =>
      simp only [convertMarkdownLinksAux]
      cases h : tryMatchLink (c :: cs) with
      | some p =>
        obtain ⟨txt, rest⟩ := p
        dsimp only
        have hlt := tryMatchLink_length h
        simp only [List.length_cons] at hf hg hlt
        have e1 := ih f (by omega) rest.length rest (by omega) (by omega)
        have e2 := ih rest.length (by omega) g rest (by omega) (by omega)
        rw [e1, e2]
      | none =>
        dsimp only
        simp only [List.length_cons] at hf hg
        have := ih f (by omega) g cs (by omega) (by omega)
        rw [this]

example :
    convertMarkdownLinksToPlainText "This [is] not a markdown link.".toList
      = "This [is] not a markdown link.".toList := by decide

example :
    convertMarkdownLinksToPlainText "This (is) not a markdown link.".toList
      = "This (is) not a markdown link.".toList := by decide

example :
    convertMarkdownLinksToPlainText "[aaa](https://x.com/)は[bbb](https://y.com)だ".toList
      = "aaaはbbbだ".toList := by decide

/-- One rich-text span, as in `notionapi.RichText`: plain text plus a
hyperlink (`Href`, empty when absent). -/
structure RichTextItem where
  plainText : GoStr
  href : GoStr
deriving DecidableEq

/-- `extractRichText` from the source: concatenate the spans, wrapping a
span that carries a link as `[text](url)`. -/
def extractRichText (richText : List RichTextItem) : GoStr :=
  richText.foldl
    (fun text rt =>
      if rt.href ≠ [] then
        text ++ ('[' :: (rt.plainText ++ (']' :: '(' :: (rt.href ++ [')']))))
      else
        text ++ rt.plainText)
    []

/-- A typed Notion content block, restricted to the fields the converter
reads.  `imageBlock` carries the image URL already extracted from the
external/file variants (an empty URL models the case where neither variant
supplied one); `unsupported` covers every block type the switch ignores. -/
inductive Block where
  | paragraph (richText : List RichTextItem)
  | heading1 (richText : List RichTextItem)
  | heading2 (richText : List RichTextItem)
  | heading3 (richText : List RichTextItem)
  | bulletedListItem (richText : List RichTextItem)
  | numberedListItem (richText : List RichTextItem)
  | toDo (richText : List RichTextItem) (checked : Bool)
  | codeBlock (richText : List RichTextItem) (language : GoStr)
  | quote (richText : List RichTextItem)
  | divider
  | imageBlock (url : GoStr)
  | unsupported
deriving DecidableEq

/-- One arm of the block switch in `retrievePageContent`.  `resolver`
abstracts `downloadImage`: `some p` is the returned local path, `none`
a download failure (in which case the original URL is used). -/
def renderBlock (resolver : GoStr → Option GoStr) : Block → GoStr
  | .paragraph rt => extractRichText rt ++ "  \n\n".toList
  | .heading1 rt => "# ".toList ++ extractRichText rt ++ "  \n\n".toList
  | .heading2 rt => "## ".toList ++ extractRichText rt ++ "  \n\n".toList
  | .heading3 rt => "### ".toList ++ extractRichText rt ++ "  \n\n".toList
  | .bulletedListItem rt => "- ".toList ++ extractRichText rt ++ "  \n".toList
  | .numberedListItem rt => "1. ".toList ++ extractRichText rt ++ "  \n".toList
  | .toDo rt checked =>
    (if checked then "- [x] ".toList else "- [ ] ".toList) ++
      extractRichText rt ++ "  \n".toList
  | .codeBlock rt language =>
    "```".toList ++ language ++ "  \n".toList ++ extractRichText rt ++
      "  \n```  \n\n".toList
  | .quote rt => "> ".toList ++ extractRichText rt ++ "  \n\n".toList
  | .divider => "---  \n\n".toList
  | .imageBlock url =>
    if url = [] then []
    else
      match resolver url with
      | some localImagePath =>
        "![Image](/images/".toList ++ localImagePath ++ ")  \n\n".toList
      | none => "![Image](".toList ++ url ++ ")  \n\n".toList
  | .unsupported => []

/-- The markdown-accumulation loop of `retrievePageContent` (the fetch
itself is external; this is the conversion applied to the fetched blocks). -/
def retrievePageContent (resolver : GoStr → Option GoStr)
    (blocks : List Block) : GoStr :=
  blocks.foldl (fun markdown b => markdown ++ renderBlock resolver b) []

/-- The `Frontmatter` struct of the source. -/
structure Frontmatter where
  id : GoStr := []
  title : GoStr := []
  description : GoStr := []
  publishedAt : GoStr := []
  updatedAt : GoStr := []
  date : GoStr := []
  tags : List GoStr := []
  draft : Bool := false
  weather : GoStr := []

/-- Join with a multi-character separator (Go `strings.Join`). -/
def joinStr (sep : GoStr) : List GoStr → GoStr
  | [] => []
  | [x] => x
  | x :: xs => x ++ sep ++ joinStr sep xs

/-- `generateFrontmatterYAML` from the source: a fixed-order sequence of
`key: value` lines; `id`, `description`, `publishedAt`, `date`, `weather`
emitted only when non-empty, `title` always, `tags` when non-empty as an
inline bracketed quoted list, `draft` only when true. -/
def generateFrontmatterYAML (fm : Frontmatter) : GoStr :=
  (if fm.id ≠ [] then "id: ".toList ++ fm.id ++ ['\n'] else []) ++
  ("title: ".toList ++ fm.title ++ ['\n']) ++
  (if fm.description ≠ [] then
    "description: ".toList ++ fm.description ++ ['\n'] else []) ++
  (if fm.publishedAt ≠ [] then
    "publishedAt: ".toList ++ fm.publishedAt ++ ['\n'] else []) ++
  (if fm.date ≠ [] then "date: ".toList ++ fm.date ++ ['\n'] else []) ++
  (if fm.tags ≠ [] then
    "tags: [".toList ++
      joinStr ", ".toList (fm.tags.map (fun t => '"' :: (t ++ ['"']))) ++
      "]\n".toList
   else []) ++
  (if fm.draft then "draft: true\n".toList else []) ++
  (if fm.weather ≠ [] then "weather: ".toList ++ fm.weather ++ ['\n'] else [])

/-- A Notion page property, restricted to the variants the converter
type-asserts on.  `otherProp` covers all other property kinds; its payload
is the string Go's `fmt` `%v` verb would render for the value (an external
library detail carried abstractly, consumed only by the ID extraction). -/
inductive PropertyValue where
  | titleProp (title : List RichTextItem)
  | multiSelectProp (names : List GoStr)
  | richTextProp (richText : List RichTextItem)
  | otherProp (goRepr : GoStr)
deriving DecidableEq

/-- A calendar date, standing for the `CreatedTime` timestamp (only its
`2006-01-02` rendering is consumed). -/
structure GoDate where
  year : Nat
  month : Nat
  day : Nat
deriving DecidableEq

/-- Left-pad with zeros to the given width. -/
def padZeros (width : Nat) (ds : GoStr) : GoStr :=
  List.replicate (width - ds.length) '0' ++ ds

/-- Go's `time.Format("2006-01-02")`: zero-padded `YYYY-MM-DD`. -/
def formatDateISO (d : GoDate) : GoStr :=
  padZeros 4 (Nat.toDigits 10 d.year) ++
    '-' :: (padZeros 2 (Nat.toDigits 10 d.month) ++
      '-' :: padZeros 2 (Nat.toDigits 10 d.day))

example : formatDateISO ⟨2023, 1, 1⟩ = "2023-01-01".toList := by decide

/-- A Notion page: its object ID, its property map (association list with
distinct keys, standing for the Go map), and its creation time. -/
structure Page where
  id : GoStr
  properties : List (GoStr × PropertyValue)
  createdTime : GoDate

/-- Go map lookup `page.Properties[key]`. -/
def getProperty (page : Page) (key : GoStr) : Option PropertyValue :=
  (page.properties.find? (fun e => e.1 == key)).map (fun e => e.2)

/-- The body of each lookup arm: `if tp, ok := prop.(*TitleProperty); ok &&
len(tp.Title) > 0`, yielding the first span's plain text, else leaving the
title empty. -/
def titleOfProperty : PropertyValue → GoStr
  | .titleProp (rt :: _) => rt.plainText
  | _ => []

/-- The title-extraction chain of `processPage`: the keys `title`, `Title`,
`Name`, `titile` are tried for *presence* in order; the first present one
is consulted (even when it yields an empty title, the chain stops). -/
def resolveTitle (page : Page) : GoStr :=
  match getProperty page "title".toList with
  | some v => titleOfProperty v
  | none =>
    match getProperty page "Title".toList with
    | some v => titleOfProperty v
    | none =>
      match getProperty page "Name".toList with
      | some v => titleOfProperty v
      | none =>
        match getProperty page "titile".toList with
        | some v => titleOfProperty v
        | none => []

/-- The characters `/ \ : * ? " < > |` replaced by `generateFilename`. -/
def invalidFilenameChar (c : Char) : Bool :=
  c = '/' || c = '\\' || c = ':' || c = '*' || c = '?' || c = '"' ||
  c = '<' || c = '>' || c = '|'

/-- `reg.ReplaceAllString(title, "_")` for the class above (a one-character
class, hence a per-character replacement). -/
def sanitizeFilename (title : GoStr) : GoStr :=
  title.map (fun c => if invalidFilenameChar c then '_' else c)

/-- `generateFilename` from the source: title from `title`/`Title`/`Name`
(presence-first, as in `resolveTitle` but without the `titile` fallback),
page ID when empty, invalid characters replaced, `.md` appended. -/
def generateFilename (page : Page) : GoStr :=
  let title :=
    match getProperty page "title".toList with
    | some v => titleOfProperty v
    | none =>
      match getProperty page "Title".toList with
      | some v => titleOfProperty v
      | none =>
        match getProperty page "Name".toList with
        | some v => titleOfProperty v
        | none => []
  let title := if title = [] then page.id else title
  sanitizeFilename title ++ ".md".toList

/-- `fmt.Sprintf("%v", prop)`: external rendering, see `PropertyValue`. -/
def goPropFormat : PropertyValue → GoStr
  | .otherProp goRepr => goRepr
  | _ => []

/-- Go's `strings.TrimSuffix`. -/
def goTrimSuffix (s suf : GoStr) : GoStr :=
  if suf.isSuffixOf s then s.take (s.length - suf.length) else s

/-- The ID-property extraction of `processPage`: render with `%v`, split on
spaces, take the last part, strip a trailing `}`. -/
def idFromProperty (v : PropertyValue) : GoStr :=
  let idStr := goPropFormat v
  let parts := splitChar ' ' idStr
  goTrimSuffix (parts.getLastD []) "\x7d".toList

/-- Go's `filepath.Ext`: the suffix beginning at the final dot, empty when
there is none (our filenames never contain a path separator, which
`sanitizeFilename` replaces, so the separator clause of `Ext` is moot). -/
def goFileExt (s : GoStr) : GoStr :=
  if s.contains '.' then
    '.' :: (s.reverse.takeWhile (fun c => c != '.')).reverse
  else []

/-- The configuration fields consumed by the conversion core (API token,
database IDs and directory paths only affect external I/O). -/
structure Config where
  databaseType : GoStr

/-- The placeholder body used when the block fetch fails. -/
def placeholderContent : GoStr :=
  "This content was imported from Notion, but the content could not be retrieved.".toList

/-- Whitespace matched by RE2's `\s`: `[\t\n\f\r ]`. -/
def isRegexpSpace (c : Char) : Bool :=
  c = '\t' || c = '\n' || c = '\u000c' || c = '\r' || c = ' '

/-- The scan of `regexp \s+ → " "`: each maximal whitespace run becomes one
space (`inRun` records being inside a run already replaced). -/
def collapseSpacesAux (inRun : Bool) : GoStr → GoStr
  | [] => []
  | c :: cs =>
    if isRegexpSpace c then
      if inRun then collapseSpacesAux true cs
      else ' ' :: collapseSpacesAux true cs
    else c :: collapseSpacesAux false cs

/-- `regexp.MustCompile("\\s+").ReplaceAllString(s, " ")`. -/
def collapseSpaces (s : GoStr) : GoStr := collapseSpacesAux false s

/-- `strings.ReplaceAll(s, "\n", " ")`. -/
def replaceNewlines (s : GoStr) : GoStr :=
  s.map (fun c => if c = '\n' then ' ' else c)

/-- The blog-description derivation of `processPage`: newlines to spaces,
whitespace runs collapsed, trimmed, links stripped, then the first 70 runes
with `...` appended when longer than 70 runes. -/
def blogDescription (pageContent : GoStr) : GoStr :=
  let descriptionText := trimSpace (collapseSpaces (replaceNewlines pageContent))
  let descriptionText := convertMarkdownLinksToPlainText descriptionText
  if 70 < descriptionText.length then
    descriptionText.take 70 ++ "...".toList
  else descriptionText

/-- The frontmatter-population part of `processPage` up to the content
fetch (straight-line code between the title check and the fetch): page ID,
ID property override, tags, diary weather, creation date. -/
def pageFrontmatterBase (page : Page) (config : Config)
    (title : GoStr) : Frontmatter :=
  let fm : Frontmatter := { id := page.id, title := title }
  let fm :=
    match getProperty page "ID".toList with
    | some v => { fm with id := idFromProperty v }
    | none =>
      match getProperty page "id".toList with
      | some v => { fm with id := idFromProperty v }
      | none => fm
  let fm :=
    match getProperty page "tags".toList with
    | some (.multiSelectProp names) => { fm with tags := names }
    | some _ => fm
    | none =>
      match getProperty page "Tags".toList with
      | some (.multiSelectProp names) => { fm with tags := names }
      | _ => fm
  let fm :=
    if config.databaseType = "diary".toList then
      match getProperty page "weather".toList with
      | some (.richTextProp (rt :: _)) => { fm with weather := rt.plainText }
      | _ => fm
    else fm
  { fm with date := formatDateISO page.createdTime }

/-- The frontmatter-population part of `processPage`: the pre-fetch fields
of `pageFrontmatterBase`, plus the blog-description step that follows the
content fetch. -/
def pageFrontmatter (page : Page) (config : Config) (title : GoStr)
    (pageContent : GoStr) : Frontmatter :=
  let fm := pageFrontmatterBase page config title
  if config.databaseType = "blog".toList ∧ pageContent ≠ [] then
    { fm with description := blogDescription pageContent }
  else fm

/-- The content-selection step of `processPage`: the rendered markdown of
the fetched blocks, or the fixed placeholder when the fetch failed. -/
def fetchedPageContent (fetched : Option (List Block))
    (resolver : GoStr → Option GoStr) : GoStr :=
  match fetched with
  | some blocks => retrievePageContent resolver blocks
  | none => placeholderContent

/-- `processPage` from the source.  `fetched` is the outcome of the
external `GetChildren` call (`none` = error), `resolver` abstracts
`downloadImage`.  The result is `none` when the page is skipped, otherwise
the filename and file content handed to the write call. -/
def processPage (page : Page) (fetched : Option (List Block))
    (resolver : GoStr → Option GoStr) (config : Config) :
    Option (GoStr × GoStr) :=
  let title := resolveTitle page
  if title = [] then none
  else
    let pageContent := fetchedPageContent fetched resolver
    let fm := pageFrontmatter page config title pageContent
    let frontmatterYAML := generateFrontmatterYAML fm
    let content :=
      "---\n".toList ++ frontmatterYAML ++ "---\n\n".toList ++ pageContent
    let content := processEmptyLines content
    let filename := generateFilename page
    let filename :=
      if config.databaseType = "diary".toList ∧ fm.date ≠ [] then
        let filenameWithoutExt := goTrimSuffix filename (goFileExt filename)
        fm.date ++ '_' :: (filenameWithoutExt ++ goFileExt filename)
      else filename
    some (filename, content)

/-- The page loop of `processDatabaseType`: each fetched page is processed
in order, independently. -/
def processDatabaseTypePages (config : Config)
    (resolver : GoStr → Option GoStr) :
    List (Page × Option (List Block)) → List (Option (GoStr × GoStr))
  | [] => []
  | pr :: rest =>
    processPage pr.1 pr.2 resolver config ::
      processDatabaseTypePages config resolver rest

/-! ### Step lemmas for the empty-line collapsing loop -/

theorem loop_nil (p : Option GoStr) (c : Nat) :
    processEmptyLinesLoop p c [] = [] := rfl

theorem loop_cons_nonblank {l : GoStr} (p : Option GoStr) (c : Nat)
    (ls : List GoStr) (h : trimSpace l ≠ []) :
    processEmptyLinesLoop p c (l :: ls)
      = l :: processEmptyLinesLoop (some l) 0 ls := by
  simp [processEmptyLinesLoop, h]

theorem loop_cons_blank_first_dash {l : GoStr} {p : Option GoStr}
    (ls : List GoStr) (h : trimSpace l = []) (hd : isDashPrev p = true) :
    processEmptyLinesLoop p 0 (l :: ls)
      = l :: processEmptyLinesLoop (some l) 1 ls := by
  simp [processEmptyLinesLoop, h, hd]

theorem loop_cons_blank_first_nodash {l : GoStr} {p : Option GoStr}
    (ls : List GoStr) (h : trimSpace l = []) (hd : isDashPrev p = false) :
    processEmptyLinesLoop p 0 (l :: ls)
      = processEmptyLinesLoop (some l) 1 ls := by
  simp [processEmptyLinesLoop, h, hd]

theorem loop_cons_blank_second {l : GoStr} (p : Option GoStr)
    (ls : List GoStr) (h : trimSpace l = []) :
    processEmptyLinesLoop p 1 (l :: ls)
      = l :: processEmptyLinesLoop (some l) 2 ls := by
  simp [processEmptyLinesLoop, h]

theorem loop_cons_blank_more {l : GoStr} {c : Nat} (p : Option GoStr)
    (ls : List GoStr) (h : trimSpace l = []) (hc : 2 ≤ c) :
    processEmptyLinesLoop p c (l :: ls)
      = processEmptyLinesLoop (some l) (c + 1) ls := by
  have h1 : ¬ (c + 1 = 1) := by omega
  have h2 : ¬ (c + 1 = 2) := by omega
  simp [processEmptyLinesLoop, h, h1, h2]

/-- The loop keeps every line of its input (seen from state `(prev, cnt)`):
the blank-line conditions always fire for the kept lines.  A list with this
property is a fixed point of the loop (`loop_of_keepsFrom`). -/
def keepsFrom (prev : Option GoStr) (cnt : Nat) : List GoStr → Prop
  | [] => True
  | l :: ls =>
    if trimSpace l = [] then
      ((cnt + 1 = 1 ∧ isDashPrev prev = true) ∨ cnt + 1 = 2) ∧
        keepsFrom (some l) (cnt + 1) ls
    else keepsFrom (some l) 0 ls

theorem keepsFrom_cons_blank {l : GoStr} {p : Option GoStr} {c : Nat}
    {ls : List GoStr} (h : trimSpace l = []) :
    keepsFrom p c (l :: ls)
      ↔ (((c + 1 = 1 ∧ isDashPrev p = true) ∨ c + 1 = 2) ∧
          keepsFrom (some l) (c + 1) ls) := by
  simp [keepsFrom, h]

theorem keepsFrom_cons_nonblank {l : GoStr} {p : Option GoStr} {c : Nat}
    {ls : List GoStr} (h : trimSpace l ≠ []) :
    keepsFrom p c (l :: ls) ↔ keepsFrom (some l) 0 ls := by
  simp [keepsFrom, h]

theorem loop_of_keepsFrom :
    ∀ (ls : List GoStr) (p : Option GoStr) (c : Nat),
      keepsFrom p c ls → processEmptyLinesLoop p c ls = ls := by
  intro ls
  induction ls with
  | nil => intro p c _; rfl
  | cons l ls ih =>
    intro p c h
    by_cases hl : trimSpace l = []
    · rw [keepsFrom_cons_blank hl] at h
      obtain ⟨hcond, hrest⟩ := h
      rcases hcond with ⟨hc1, hd⟩ | hc2
      · have hc : c = 0 := by omega
        subst hc
        rw [loop_cons_blank_first_dash ls hl hd, ih _ _ hrest]
      · have hc : c = 1 := by omega
        subst hc
        rw [loop_cons_blank_second _ ls hl, ih _ _ hrest]
    · rw [keepsFrom_cons_nonblank hl] at h
      rw [loop_cons_nonblank _ _ ls hl, ih _ _ h]

theorem isDashPrev_none : isDashPrev none = false := rfl

theorem isDashPrev_some_of (l : GoStr) (h : trimSpace l = dashLine) :
    isDashPrev (some l) = true := by simp [isDashPrev, h]

theorem isDashPrev_some_not (l : GoStr) (h : trimSpace l ≠ dashLine) :
    isDashPrev (some l) = false := by simp [isDashPrev, h]

theorem dashLine_ne_nil : dashLine ≠ [] := by decide

/-- Simultaneously reachable states of three chained runs of the collapsing
loop (first pass, second pass, and the `keepsFrom` check standing for a
third pass), starting from the initial state.  Blank lines dropped by an
earlier pass are invisible to the later ones, which is why the three states
can differ. -/
inductive TripleInv :
    Option GoStr → Nat → Option GoStr → Nat → Option GoStr → Nat → Prop
  | start : TripleInv none 0 none 0 none 0
  | afterDash (l : GoStr) : trimSpace l = dashLine →
      TripleInv (some l) 0 (some l) 0 (some l) 0
  | afterOther (l : GoStr) : trimSpace l ≠ [] → trimSpace l ≠ dashLine →
      TripleInv (some l) 0 (some l) 0 (some l) 0
  | startBlank (b : GoStr) : trimSpace b = [] →
      TripleInv (some b) 1 none 0 none 0
  | startBlank2 (b b' : GoStr) (c : Nat) : trimSpace b = [] →
      trimSpace b' = [] → 2 ≤ c →
      TripleInv (some b) c (some b') 1 none 0
  | dashBlank (b : GoStr) : trimSpace b = [] →
      TripleInv (some b) 1 (some b) 1 (some b) 1
  | dashBlank2 (b b' : GoStr) (c : Nat) : trimSpace b = [] →
      trimSpace b' = [] → 2 ≤ c →
      TripleInv (some b) c (some b') 2 (some b') 2
  | otherBlank (b l : GoStr) : trimSpace b = [] → trimSpace l ≠ [] →
      trimSpace l ≠ dashLine →
      TripleInv (some b) 1 (some l) 0 (some l) 0
  | otherBlank2 (b b' l : GoStr) (c : Nat) : trimSpace b = [] →
      trimSpace b' = [] → 2 ≤ c → trimSpace l ≠ [] →
      trimSpace l ≠ dashLine →
      TripleInv (some b) c (some b') 1 (some l) 0

/-- Running the collapsing loop twice from compatible states yields a list
the loop keeps in full: a third pass is the identity. -/
theorem pipeline_keepsFrom :
    ∀ (ls : List GoStr) (p1 : Option GoStr) (c1 : Nat) (p2 : Option GoStr)
      (c2 : Nat) (p3 : Option GoStr) (c3 : Nat),
      TripleInv p1 c1 p2 c2 p3 c3 →
      keepsFrom p3 c3
        (processEmptyLinesLoop p2 c2 (processEmptyLinesLoop p1 c1 ls)) := by
  intro ls
  induction ls with
  | nil =>
    intro p1 c1 p2 c2 p3 c3 _
    simp [loop_nil, keepsFrom]
  | cons l ls ih =>
    intro p1 c1 p2 c2 p3 c3 hinv
    by_cases hl : trimSpace l = []
    · match hinv with
      | .start =>
        rw [loop_cons_blank_first_nodash ls hl isDashPrev_none]
        exact ih _ _ _ _ _ _ (TripleInv.startBlank l hl)
      | .afterDash l' hd =>
        have hdp := isDashPrev_some_of l' hd
        rw [loop_cons_blank_first_dash ls hl hdp,
          loop_cons_blank_first_dash _ hl hdp, keepsFrom_cons_blank hl]
        exact ⟨Or.inl ⟨rfl, hdp⟩, ih _ _ _ _ _ _ (TripleInv.dashBlank l hl)⟩
      | .afterOther l' hne hnd =>
        have hdp := isDashPrev_some_not l' hnd
        rw [loop_cons_blank_first_nodash ls hl hdp]
        exact ih _ _ _ _ _ _ (TripleInv.otherBlank l l' hl hne hnd)
      | .startBlank b hb =>
        rw [loop_cons_blank_second _ ls hl,
          loop_cons_blank_first_nodash _ hl isDashPrev_none]
        exact ih _ _ _ _ _ _
          (TripleInv.startBlank2 l l 2 hl hl (by omega))
      | .startBlank2 b b' c hb hb' hc =>
        rw [loop_cons_blank_more _ ls hl hc]
        exact ih _ _ _ _ _ _
          (TripleInv.startBlank2 l b' (c + 1) hl hb' (by omega))
      | .dashBlank b hb =>
        rw [loop_cons_blank_second _ ls hl, loop_cons_blank_second _ _ hl,
          keepsFrom_cons_blank hl]
        exact ⟨Or.inr rfl,
          ih _ _ _ _ _ _ (TripleInv.dashBlank2 l l 2 hl hl (by omega))⟩
      | .dashBlank2 b b' c hb hb' hc =>
        rw [loop_cons_blank_more _ ls hl hc]
        exact ih _ _ _ _ _ _
          (TripleInv.dashBlank2 l b' (c + 1) hl hb' (by omega))
      | .otherBlank b l' hb hne hnd =>
        have hdp := isDashPrev_some_not l' hnd
        rw [loop_cons_blank_second _ ls hl,
          loop_cons_blank_first_nodash _ hl hdp]
        exact ih _ _ _ _ _ _
          (TripleInv.otherBlank2 l l l' 2 hl hl (by omega) hne hnd)
      | .otherBlank2 b b' l' c hb hb' hc hne hnd =>
        rw [loop_cons_blank_more _ ls hl hc]
        exact ih _ _ _ _ _ _
          (TripleInv.otherBlank2 l b' l' (c + 1) hl hb' (by omega) hne hnd)
    · rw [loop_cons_nonblank _ _ ls hl, loop_cons_nonblank _ _ _ hl,
        keepsFrom_cons_nonblank hl]
      by_cases hd : trimSpace l = dashLine
      · exact ih _ _ _ _ _ _ (TripleInv.afterDash l hd)
      · exact ih _ _ _ _ _ _ (TripleInv.afterOther l hl hd)

/-- At the line-list level, the second pass of the collapsing loop is a
fixed point of the loop. -/
theorem loop_third_pass (ls : List GoStr) :
    processEmptyLinesLoop none 0
        (processEmptyLinesLoop none 0 (processEmptyLinesLoop none 0 ls))
      = processEmptyLinesLoop none 0 (processEmptyLinesLoop none 0 ls) :=
  loop_of_keepsFrom _ _ _
    (pipeline_keepsFrom ls none 0 none 0 none 0 TripleInv.start)

/-- Every line of the loop's output is a line of its input. -/
theorem mem_loop : ∀ (ls : List GoStr) (p : Option GoStr) (c : Nat)
    (x : GoStr), x ∈ processEmptyLinesLoop p c ls → x ∈ ls := by
  intro ls
  induction ls with
  | nil => intro p c x h; exact absurd h (by simp [loop_nil])
  | cons l ls ih =>
    intro p c x h
    unfold processEmptyLinesLoop at h
    repeat' split at h
    all_goals
      first
        | (rcases List.mem_cons.mp h with h1 | h1
           · exact List.mem_cons.mpr (Or.inl h1)
           · exact List.mem_cons.mpr (Or.inr (ih _ _ _ h1)))
        | exact List.mem_cons.mpr (Or.inr (ih _ _ _ h))

/-- `strings.Split` pieces never contain the separator. -/
theorem splitChar_pieces_no_sep (sep : Char) :
    ∀ (s : GoStr) (x : GoStr), x ∈ splitChar sep s → sep ∉ x := by
  intro s
  induction s with
  | nil =>
    intro x hx
    simp only [splitChar, List.mem_singleton] at hx
    subst hx; simp
  | cons c cs ih =>
    intro x hx
    unfold splitChar at hx
    split at hx
    · rcases List.mem_cons.mp hx with h | h
      · subst h; simp
      · exact ih _ h
    · rename_i hne
      split at hx
      · rcases List.mem_cons.mp hx with h | h
        · subst h
          simp only [List.mem_singleton]
          intro hc
          exact hne hc.symm
        · exact absurd h (by simp)
      · rename_i p ps heq
        rcases List.mem_cons.mp hx with h | h
        · subst h
          intro hmem
          rcases List.mem_cons.mp hmem with h2 | h2
          · exact hne h2.symm
          · exact ih p (by rw [heq]; exact List.mem_cons.mpr (Or.inl rfl)) h2
        · exact ih x (by rw [heq]; exact List.mem_cons.mpr (Or.inr h))

theorem splitChar_cons (sep c : Char) (cs : GoStr) :
    splitChar sep (c :: cs) =
      if c = sep then [] :: splitChar sep cs
      else
        match splitChar sep cs with
        | [] => [[c]]
        | p :: ps => (c :: p) :: ps := rfl

theorem splitChar_of_no_sep {sep : Char} :
    ∀ {x : GoStr}, sep ∉ x → splitChar sep x = [x] := by
  intro x
  induction x with
  | nil => intro _; rfl
  | cons c cs ih =>
    intro h
    have hc : ¬ (c = sep) := fun he => h (by simp [he])
    have hcs : sep ∉ cs := fun hm => h (List.mem_cons.mpr (Or.inr hm))
    rw [splitChar_cons, if_neg hc, ih hcs]

theorem splitChar_append_sep {sep : Char} :
    ∀ {x : GoStr} (t : GoStr), sep ∉ x →
      splitChar sep (x ++ sep :: t) = x :: splitChar sep t := by
  intro x
  induction x with
  | nil =>
    intro t _
    simp only [List.nil_append]
    rw [splitChar_cons, if_pos rfl]
  | cons c cs ih =>
    intro t h
    have hc : ¬ (c = sep) := fun he => h (by simp [he])
    have hcs : sep ∉ cs := fun hm => h (List.mem_cons.mpr (Or.inr hm))
    simp only [List.cons_append]
    rw [splitChar_cons, if_neg hc, ih t hcs]

/-- `Split` is a left inverse of `Join` on non-empty, separator-free piece
lists. -/
theorem splitChar_joinChar {sep : Char} :
    ∀ {v : List GoStr}, v ≠ [] → (∀ x ∈ v, sep ∉ x) →
      splitChar sep (joinChar sep v) = v := by
  intro v
  induction v with
  | nil => intro h _; exact absurd rfl h
  | cons x xs ih =>
    intro _ hsep
    cases xs with
    | nil =>
      show splitChar sep (joinChar sep [x]) = [x]
      unfold joinChar
      exact splitChar_of_no_sep (hsep x (by simp))
    | cons y ys =>
      show splitChar sep (joinChar sep (x :: y :: ys)) = x :: y :: ys
      have hj : joinChar sep (x :: y :: ys) = x ++ sep :: joinChar sep (y :: ys) := rfl
      rw [hj, splitChar_append_sep _ (hsep x (by simp)),
        ih (by simp) (fun z hz => hsep z (List.mem_cons.mpr (Or.inr hz)))]

/-- Applying `processEmptyLines` to a join of separator-free lines runs the
loop directly on those lines. -/
theorem processEmptyLines_joinChar (v : List GoStr)
    (hv : ∀ x ∈ v, '\n' ∉ x) :
    processEmptyLines (joinChar '\n' v)
      = joinChar '\n' (processEmptyLinesLoop none 0 v) := by
  cases v with
  | nil => decide
  | cons x xs =>
    unfold processEmptyLines
    rw [splitChar_joinChar (by simp) hv]

/-- C1, counterexample: `processEmptyLines` is not idempotent.  On
`"a\n\n\nb"` the first pass collapses the two-blank run to one blank line
(`"a\n\nb"`), and a second pass then removes that now-single blank line
(`"a\nb"`), so running twice differs from running once. -/
theorem c1_processEmptyLines_not_idempotent :
    processEmptyLines (processEmptyLines "a\n\n\nb".toList)
      ≠ processEmptyLines "a\n\n\nb".toList := by decide

/-- C1 (amended): `processEmptyLines` is not idempotent, but its second
application reaches a fixed point: for every text x,
`processEmptyLines` applied three times equals `processEmptyLines` applied
twice. -/
theorem c1_processEmptyLines_second_pass_fixed (s : GoStr) :
    processEmptyLines (processEmptyLines (processEmptyLines s))
      = processEmptyLines (processEmptyLines s) := by
  have hsrc : ∀ x ∈ splitChar '\n' s, '\n' ∉ x :=
    splitChar_pieces_no_sep '\n' s
  have hv : ∀ x ∈ processEmptyLinesLoop none 0 (splitChar '\n' s),
      '\n' ∉ x :=
    fun x hx => hsrc x (mem_loop _ _ _ _ hx)
  have hw : ∀ x ∈ processEmptyLinesLoop none 0
      (processEmptyLinesLoop none 0 (splitChar '\n' s)), '\n' ∉ x :=
    fun x hx => hv x (mem_loop _ _ _ _ hx)
  have e1 : processEmptyLines (processEmptyLines s)
      = joinChar '\n' (processEmptyLinesLoop none 0
          (processEmptyLinesLoop none 0 (splitChar '\n' s))) :=
    processEmptyLines_joinChar _ hv
  have e2 : processEmptyLines (processEmptyLines (processEmptyLines s))
      = joinChar '\n' (processEmptyLinesLoop none 0
          (processEmptyLinesLoop none 0
            (processEmptyLinesLoop none 0 (splitChar '\n' s)))) := by
    rw [e1]
    exact processEmptyLines_joinChar _ hw
  rw [e2, e1, loop_third_pass]

/-! ### Blank-run description of the collapsing pass (claim C2) -/

/-- A blank (whitespace-only) line, as a Boolean predicate. -/
def isBlankLine (l : GoStr) : Bool := decide (trimSpace l = [])

/-- The collapsing pass described run-by-run: walking the lines, a maximal
run of blank lines is replaced according to the line preceding the run —
after a line trimming to `---` the first two lines of the run survive
(so one blank survives a run of one, two blanks survive a longer run);
anywhere else (including at the start of the text) a run of length K
keeps exactly its second line when K ≥ 2 and nothing when K = 1.
Non-blank lines are always kept. -/
def collapseRunsSpec (prev : Option GoStr) : List GoStr → List GoStr
  | [] => []
  | l :: ls =>
    if trimSpace l = [] then
      let run := l :: ls.takeWhile isBlankLine
      let rest := ls.dropWhile isBlankLine
      (if isDashPrev prev then run.take 2
       else if 2 ≤ run.length then [run.getD 1 []] else []) ++
        collapseRunsSpec (some (run.getLast (List.cons_ne_nil _ _))) rest
    else l :: collapseRunsSpec (some l) ls
termination_by ls => ls.length
decreasing_by
  all_goals
    have h := dropWhile_length_le isBlankLine ps
    simp only [List.length_cons]
    omega

theorem dropWhile_head_false {α : Type} (p : α → Bool) :
    ∀ (l : List α) (m : α) (t : List α),
      l.dropWhile p = m :: t → p m = false := by
  intro l
  induction l with
  | nil => intro m t h; exact absurd h (by simp)
  | cons c cs ih =>
    intro m t h
    by_cases hc : p c
    · rw [List.dropWhile_cons_of_pos hc] at h
      exact ih _ _ h
    · rw [List.dropWhile_cons_of_neg hc] at h
      obtain ⟨h1, _⟩ := List.cons.injEq .. ▸ h
      cases h
      simpa using hc

theorem loop_blank_run_high :
    ∀ (r : List GoStr) (p : Option GoStr) (c : Nat),
      (∀ x ∈ r, trimSpace x = []) → 2 ≤ c →
      processEmptyLinesLoop p c r = [] := by
  intro r
  induction r with
  | nil => intro p c _ _; rfl
  | cons l r ih =>
    intro p c hall hc
    rw [loop_cons_blank_more _ _ (hall l (by simp)) hc]
    exact ih _ _ (fun x hx => hall x (by simp [hx])) (by omega)

theorem loop_blank_run_high_append :
    ∀ (r : List GoStr) (p : Option GoStr) (c : Nat) (n : GoStr)
      (t : List GoStr),
      (∀ x ∈ r, trimSpace x = []) → 2 ≤ c → trimSpace n ≠ [] →
      processEmptyLinesLoop p c (r ++ n :: t)
        = n :: processEmptyLinesLoop (some n) 0 t := by
  intro r
  induction r with
  | nil =>
    intro p c n t _ _ hn
    simp only [List.nil_append]
    exact loop_cons_nonblank _ _ _ hn
  | cons l r ih =>
    intro p c n t hall hc hn
    simp only [List.cons_append]
    rw [loop_cons_blank_more _ _ (hall l (by simp)) hc]
    exact ih _ _ _ _ (fun x hx => hall x (by simp [hx])) (by omega) hn

theorem loop_blank_run_one (r : List GoStr) (p : Option GoStr)
    (hall : ∀ x ∈ r, trimSpace x = []) :
    processEmptyLinesLoop p 1 r = r.take 1 := by
  cases r with
  | nil => rfl
  | cons l r =>
    rw [loop_cons_blank_second _ _ (hall l (by simp))]
    rw [loop_blank_run_high r _ _ (fun x hx => hall x (by simp [hx]))
      (by omega)]
    rfl

theorem loop_blank_run_one_append (r : List GoStr) (p : Option GoStr)
    (n : GoStr) (t : List GoStr)
    (hall : ∀ x ∈ r, trimSpace x = []) (hn : trimSpace n ≠ []) :
    processEmptyLinesLoop p 1 (r ++ n :: t)
      = r.take 1 ++ n :: processEmptyLinesLoop (some n) 0 t := by
  cases r with
  | nil =>
    simp only [List.nil_append, List.take_nil]
    exact loop_cons_nonblank _ _ _ hn
  | cons l r =>
    simp only [List.cons_append]
    rw [loop_cons_blank_second _ _ (hall l (by simp))]
    rw [loop_blank_run_high_append r _ _ _ _
      (fun x hx => hall x (by simp [hx])) (by omega) hn]
    rfl

theorem collapseRunsSpec_nil (p : Option GoStr) :
    collapseRunsSpec p [] = [] := by
  simp [collapseRunsSpec]

theorem collapseRunsSpec_cons_nonblank (p : Option GoStr) (l : GoStr)
    (ls : List GoStr) (h : trimSpace l ≠ []) :
    collapseRunsSpec p (l :: ls) = l :: collapseRunsSpec (some l) ls := by
  rw [collapseRunsSpec]
  simp [h]

theorem collapseRunsSpec_cons_blank (p : Option GoStr) (l : GoStr)
    (ls : List GoStr) (h : trimSpace l = []) :
    collapseRunsSpec p (l :: ls) =
      (if isDashPrev p then (l :: ls.takeWhile isBlankLine).take 2
       else if 2 ≤ (l :: ls.takeWhile isBlankLine).length then
         [(l :: ls.takeWhile isBlankLine).getD 1 []]
       else []) ++
        collapseRunsSpec
          (some ((l :: ls.takeWhile isBlankLine).getLast
            (List.cons_ne_nil _ _)))
          (ls.dropWhile isBlankLine) := by
  rw [collapseRunsSpec]
  simp [h]

theorem kept_nodash_eq (l : GoStr) (tw : List GoStr) :
    (if 2 ≤ (l :: tw).length then [(l :: tw).getD 1 []] else [])
      = tw.take 1 := by
  cases tw with
  | nil => simp
  | cons m t => simp [List.getD]

/-- The collapsing loop from the initial state computes exactly the
blank-run description `collapseRunsSpec`. -/
theorem loop_eq_collapseRunsSpec :
    ∀ (n : Nat) (ls : List GoStr), ls.length ≤ n → ∀ (p : Option GoStr),
      processEmptyLinesLoop p 0 ls = collapseRunsSpec p ls := by
  intro n
  induction n with
  | zero =>
    intro ls hle p
    have hnil : ls = [] := List.eq_nil_of_length_eq_zero (by omega)
    subst hnil
    simp [collapseRunsSpec_nil, loop_nil]
  | succ n ih =>
    intro ls hle p
    cases ls with
    | nil => simp [collapseRunsSpec_nil, loop_nil]
    | cons l ls =>
      by_cases hl : trimSpace l = []
      · have htw : ∀ x ∈ ls.takeWhile isBlankLine, trimSpace x = [] := by
          intro x hx
          have := List.mem_takeWhile_imp hx
          simpa [isBlankLine] using this
        have hsplit :
            ls.takeWhile isBlankLine ++ ls.dropWhile isBlankLine = ls :=
          List.takeWhile_append_dropWhile isBlankLine ls
        rw [collapseRunsSpec_cons_blank _ _ _ hl]
        cases hdw : ls.dropWhile isBlankLine with
        | nil =>
          have hallblank : ∀ x ∈ ls, trimSpace x = [] := by
            intro x hx
            have := List.dropWhile_eq_nil_iff.mp hdw x hx
            simpa [isBlankLine] using this
          have htweq : ls.takeWhile isBlankLine = ls := by
            rw [hdw] at hsplit
            simpa using hsplit
          have hloop1 : processEmptyLinesLoop (some l) 1 ls = ls.take 1 :=
            loop_blank_run_one ls _ hallblank
          rw [htweq, collapseRunsSpec_nil, List.append_nil]
          cases hd : isDashPrev p with
          | true =>
            rw [loop_cons_blank_first_dash ls hl hd, hloop1]
            simp [List.take_succ_cons]
          | false =>
            rw [loop_cons_blank_first_nodash ls hl hd, hloop1,
              kept_nodash_eq]
            simp
        | cons m t =>
          have hm : trimSpace m ≠ [] := by
            have := dropWhile_head_false isBlankLine ls m t hdw
            simpa [isBlankLine] using this
          have hlsdec : ls = ls.takeWhile isBlankLine ++ m :: t := by
            conv_lhs => rw [← hsplit]
            rw [hdw]
          have hloop1 : processEmptyLinesLoop (some l) 1 ls
              = (ls.takeWhile isBlankLine).take 1 ++
                  m :: processEmptyLinesLoop (some m) 0 t := by
            conv_lhs => rw [hlsdec]
            exact loop_blank_run_one_append _ _ _ _ htw hm
          have hlen : t.length ≤ n := by
            have h1 : (ls.dropWhile isBlankLine).length ≤ ls.length :=
              dropWhile_length_le _ ls
            rw [hdw] at h1
            simp only [List.length_cons] at h1 hle
            omega
          have hrec : processEmptyLinesLoop (some m) 0 t
              = collapseRunsSpec (some m) t := ih t hlen _
          rw [collapseRunsSpec_cons_nonblank _ _ _ hm, ← hrec]
          cases hd : isDashPrev p with
          | true =>
            rw [loop_cons_blank_first_dash ls hl hd, hloop1]
            simp [List.take_succ_cons]
          | false =>
            rw [loop_cons_blank_first_nodash ls hl hd, hloop1,
              kept_nodash_eq]
            simp
      · rw [loop_cons_nonblank _ _ _ hl,
          collapseRunsSpec_cons_nonblank _ _ _ hl,
          ih ls (by simp only [List.length_cons] at hle; omega) (some l)]

/-- C2, counterexample: after a `---` line, a run of two blank lines is
kept in full (the first because it follows `---`, the second because the
count reaches 2), so the output run has 2 blank lines where the claim
demands exactly 1.  On `"---\n\n\nx"` the function is the identity. -/
theorem c2_counterexample :
    processEmptyLines "---\n\n\nx".toList = "---\n\n\nx".toList ∧
      processEmptyLines "---\n\n\nx".toList ≠ "---\n\nx".toList := by
  constructor
  · decide
  · decide

/-- C2 (amended): in the output of `processEmptyLines`, every maximal run
of K ≥ 2 blank lines not following a `---`-trimming line (including a run
at the start) is replaced by exactly one blank line, and a K = 1 run there
is removed; after a line whose trimmed content is `---`, the first TWO
blank lines of the run survive (so K = 1 keeps 1 and K ≥ 2 keeps exactly
2); non-blank lines are always kept.  Stated as equality with the
run-by-run description `collapseRunsSpec` over the split lines. -/
theorem c2_blank_run_collapsing (s : GoStr) :
    processEmptyLines s
      = joinChar '\n' (collapseRunsSpec none (splitChar '\n' s)) := by
  unfold processEmptyLines
  rw [loop_eq_collapseRunsSpec (splitChar '\n' s).length _ le_rfl]

/-! ### Leftmost-replacement description of the link stripper (claim C3) -/

/-- The input `s` begins with a markdown link `[txt](url)` — with non-empty
text and URL parts, as in the source regex — followed by `rest`. -/
def LinkAt (txt url rest s : GoStr) : Prop :=
  s = '[' :: (txt ++ (']' :: '(' :: (url ++ (')' :: rest)))) ∧
    txt ≠ [] ∧ ']' ∉ txt ∧ url ≠ [] ∧ ')' ∉ url

/-- The replacement discipline of `ReplaceAllString` for this pattern:
scanning left to right, a link occurrence is replaced by its captured text
and the scan resumes after it; a position at which no occurrence starts is
copied unchanged. -/
inductive StripRel : GoStr → GoStr → Prop
  | nil : StripRel [] []
  | link (txt url rest out s : GoStr) :
      LinkAt txt url rest s → StripRel rest out → StripRel s (txt ++ out)
  | keep (c : Char) (cs out : GoStr) :
      (∀ txt url rest, ¬ LinkAt txt url rest (c :: cs)) →
      StripRel cs out → StripRel (c :: cs) (c :: out)

theorem takeWhile_dropWhile_append {α : Type} (p : α → Bool) (a : List α)
    (y : α) (b : List α) (ha : ∀ x ∈ a, p x = true) (hy : p y = false) :
    (a ++ y :: b).takeWhile p = a ∧ (a ++ y :: b).dropWhile p = y :: b := by
  induction a with
  | nil => simp [List.takeWhile_cons, List.dropWhile_cons, hy]
  | cons x a ih =>
    have hx := ha x (by simp)
    have ih2 := ih (fun z hz => ha z (by simp [hz]))
    simp [List.takeWhile_cons, List.dropWhile_cons, hx, ih2.1, ih2.2]

theorem linkAt_tryMatchLink : ∀ {txt url rest s : GoStr},
    LinkAt txt url rest s → tryMatchLink s = some (txt, rest) := by
  intro txt url rest s h
  obtain ⟨hs, htne, htmem, hune, humem⟩ := h
  subst hs
  have ht := takeWhile_dropWhile_append (fun c => c != ']') txt ']'
    ('(' :: (url ++ (')' :: rest)))
    (fun x hx => by
      simp only [bne_iff_ne, ne_eq, decide_eq_true_eq]
      exact fun he => htmem (he ▸ hx))
    (by simp)
  have hu := takeWhile_dropWhile_append (fun c => c != ')') url ')' rest
    (fun x hx => by
      simp only [bne_iff_ne, ne_eq, decide_eq_true_eq]
      exact fun he => humem (he ▸ hx))
    (by simp)
  cases txt with
  | nil => exact absurd rfl htne
  | cons a txt2 =>
    cases url with
    | nil => exact absurd rfl hune
    | cons b url2 =>
      simp only [tryMatchLink, ht.1, ht.2, hu.1, hu.2]

theorem tryMatchLink_linkAt : ∀ {s txt rest : GoStr},
    tryMatchLink s = some (txt, rest) → ∃ url, LinkAt txt url rest s := by
  intro s txt rest h
  unfold tryMatchLink at h
  split at h
  case h_1 t =>
    split at h
    case h_1 u htk heq =>
      split at h
      case h_1 v hutk heq2 =>
        simp only [Option.some.injEq, Prod.mk.injEq] at h
        obtain ⟨htxt, hrest⟩ := h
        refine ⟨u.takeWhile (fun c => c != ')'), ?_, ?_, ?_, ?_, ?_⟩
        · rw [← htxt, ← hrest]
          have hts : t.takeWhile (fun c => c != ']') ++
              (']' :: '(' :: (u.takeWhile (fun c => c != ')') ++
                (')' :: v))) = t := by
            have h1 := List.takeWhile_append_dropWhile
              (fun c => c != ']') t
            have h2 := List.takeWhile_append_dropWhile
              (fun c => c != ')') u
            rw [heq2] at h2
            rw [heq] at h1
            rw [← h2] at h1
            exact h1
          conv_rhs => rw [hts]
        · rw [← htxt, htk]
          exact List.cons_ne_nil _ _
        · intro hmem
          rw [← htxt] at hmem
          have := List.mem_takeWhile_imp hmem
          simp at this
        · rw [hutk]
          exact List.cons_ne_nil _ _
        · intro hmem
          have := List.mem_takeWhile_imp hmem
          simp at this
      case h_2 => exact absurd h (by simp)
    case h_2 => exact absurd h (by simp)
  case h_2 => exact absurd h (by simp)

theorem stripRel_aux :
    ∀ (n : Nat) (s : GoStr), s.length ≤ n →
      StripRel s (convertMarkdownLinksAux n s) := by
  intro n
  induction n with
  | zero =>
    intro s hle
    have hnil : s = [] := List.eq_nil_of_length_eq_zero (by omega)
    subst hnil
    exact StripRel.nil
  | succ n ih =>
    intro s hle
    cases s with
    | nil => exact StripRel.nil
    | cons c cs =>
      cases h : tryMatchLink (c :: cs) with
      | some p =>
        obtain ⟨txt, rest⟩ := p
        obtain ⟨url, hlink⟩ := tryMatchLink_linkAt h
        have hlt := tryMatchLink_length h
        have hrec : StripRel rest (convertMarkdownLinksAux n rest) :=
          ih rest (by
            simp only [List.length_cons] at hle hlt
            omega)
        have heq : convertMarkdownLinksAux (n + 1) (c :: cs)
            = txt ++ convertMarkdownLinksAux n rest := by
          simp [convertMarkdownLinksAux, h]
        rw [heq]
        exact StripRel.link txt url rest _ _ hlink hrec
      | none =>
        have heq : convertMarkdownLinksAux (n + 1) (c :: cs)
            = c :: convertMarkdownLinksAux n cs := by
          simp [convertMarkdownLinksAux, h]
        rw [heq]
        refine StripRel.keep c cs _ ?_
          (ih cs (by simp only [List.length_cons] at hle; omega))
        intro txt url rest hlink
        rw [linkAt_tryMatchLink hlink] at h
        cases h

/-- C3, counterexample: the source regex requires a NON-empty link text
(`[^\]]+`) and URL (`[^)]+`), while the claim allows possibly empty runs.
On `"[](x)"` the claim, as stated, demands the occurrence be replaced by
its (empty) captured text, producing `""`; the function leaves the input
unchanged. -/
theorem c3_counterexample :
    convertMarkdownLinksToPlainText "[](x)".toList = "[](x)".toList ∧
      "[](x)".toList ≠ ([] : GoStr) := by
  constructor
  · decide
  · decide

/-- C3 (amended): `convertMarkdownLinksToPlainText` replaces, scanning left
to right without overlap, every occurrence of `[` non-`]`⁺ `]` `(`
non-`)`⁺ `)` (both runs NON-empty) by its captured link text, and copies
every other character unchanged; in particular `[text]` without a following
parenthesised part, standalone `(text)`, and empty-text or empty-URL
bracket pairs are returned untouched. -/
theorem c3_link_stripping (s : GoStr) :
    StripRel s (convertMarkdownLinksToPlainText s) :=
  stripRel_aux s.length s le_rfl

/-! ### Fixed-order field table of the frontmatter serializer (claim C5) -/

/-- The serializer's field table, spec-side: for each field in declaration
order, its key, the full line emitted for it, and whether it counts as
populated (strings: non-empty; tags: non-empty list; draft: true; title:
always). -/
def frontmatterFields (fm : Frontmatter) : List (GoStr × GoStr × Bool) :=
  [("id".toList, "id: ".toList ++ (fm.id ++ ['\n']),
     decide (fm.id ≠ [])),
   ("title".toList, "title: ".toList ++ (fm.title ++ ['\n']), true),
   ("description".toList,
     "description: ".toList ++ (fm.description ++ ['\n']),
     decide (fm.description ≠ [])),
   ("publishedAt".toList,
     "publishedAt: ".toList ++ (fm.publishedAt ++ ['\n']),
     decide (fm.publishedAt ≠ [])),
   ("date".toList, "date: ".toList ++ (fm.date ++ ['\n']),
     decide (fm.date ≠ [])),
   ("tags".toList,
     "tags: [".toList ++
       (joinStr ", ".toList (fm.tags.map (fun t => '"' :: (t ++ ['"']))) ++
         "]\n".toList),
     decide (fm.tags ≠ [])),
   ("draft".toList, "draft: true\n".toList, fm.draft),
   ("weather".toList, "weather: ".toList ++ (fm.weather ++ ['\n']),
     decide (fm.weather ≠ []))]

theorem take_append_left {α : Type} (l1 l2 : List α) (n : Nat)
    (h : n ≤ l1.length) : (l1 ++ l2).take n = l1.take n := by
  rw [List.take_append_eq_append_take]
  have hz : n - l1.length = 0 := by omega
  rw [hz]
  simp

/-- C5, counterexample: with every field empty or absent, the serializer
still emits a `title: ` line (the title is written unconditionally), while
the claim — "a field whose value is absent or empty produces no line" —
demands empty output. -/
theorem c5_counterexample :
    generateFrontmatterYAML {} = "title: \n".toList ∧
      "title: \n".toList ≠ ([] : GoStr) := by
  constructor
  · decide
  · decide

/-- C5 (amended): the serializer emits one `key: value` line per populated
field, in the fixed order id, title, description, publishedAt, date, tags,
draft, weather, where the title counts as always populated (an empty title
still yields a `title: ` line); the other string fields are emitted only
when non-empty, the boolean draft only when true, and the tags sequence
only when non-empty, as an inline bracketed quoted comma-joined list.
Stated as: the output is the concatenation of the populated entries of the
fixed field table, each entry's line begins with `key: `, and the emitted
keys always form a sublist of the fixed key order (so the relative key
order is identical for every choice of populated fields). -/
theorem c5_frontmatter_serialization (fm : Frontmatter) :
    generateFrontmatterYAML fm
      = (((frontmatterFields fm).filter (fun e => e.2.2)).map
          (fun e => e.2.1)).flatten
    ∧ (∀ e ∈ frontmatterFields fm,
        (e.2.1).take (e.1.length + 2) = e.1 ++ ": ".toList)
    ∧ List.Sublist
        (((frontmatterFields fm).filter (fun e => e.2.2)).map (fun e => e.1))
        ((frontmatterFields fm).map (fun e => e.1)) := by
  refine ⟨?_, ?_, List.Sublist.map _ (List.filter_sublist _)⟩
  · by_cases h1 : fm.id = [] <;> by_cases h2 : fm.description = [] <;>
      by_cases h3 : fm.publishedAt = [] <;> by_cases h4 : fm.date = [] <;>
      by_cases h5 : fm.tags = [] <;> by_cases h6 : fm.draft = true <;>
      by_cases h7 : fm.weather = [] <;>
      simp only [generateFrontmatterYAML, frontmatterFields, h1, h2, h3, h4,
        h5, h6, h7, ne_eq, not_true_eq_false, not_false_eq_true,
        decide_not, if_true, if_false,
        ite_true, ite_false, List.filter_cons, List.filter_nil,
        List.map_cons, List.map_nil, List.flatten, List.append_assoc,
        List.append_nil, List.nil_append, Bool.not_true, Bool.not_false,
        Bool.false_eq_true]
  · intro e he
    simp only [frontmatterFields, List.mem_cons, List.not_mem_nil,
      or_false] at he
    rcases he with h | h | h | h | h | h | h | h <;> subst h <;>
      dsimp only <;>
      first
        | decide
        | (rw [take_append_left _ _ _ (by decide)]
           decide)

/-! ### Blog description derivation (claim C4) -/

theorem pageFrontmatterBase_description (page : Page) (config : Config)
    (title : GoStr) :
    (pageFrontmatterBase page config title).description = [] := by
  unfold pageFrontmatterBase
  repeat' split
  all_goals rfl

theorem pageFrontmatter_description (page : Page) (config : Config)
    (title pageContent : GoStr) :
    (pageFrontmatter page config title pageContent).description
      = if config.databaseType = "blog".toList ∧ pageContent ≠ [] then
          blogDescription pageContent
        else [] := by
  unfold pageFrontmatter
  dsimp only
  by_cases h : config.databaseType = "blog".toList ∧ pageContent ≠ []
  · rw [if_pos h, if_pos h]
  · rw [if_neg h, if_neg h]
    exact pageFrontmatterBase_description page config title

/-- The description field as the claim words it: the body after whitespace
normalization (newlines to spaces, whitespace runs collapsed, ends trimmed)
and markdown-link stripping, truncated to its first 70 code points with a
literal `...` appended exactly when it exceeds 70 code points; unset
(empty) for an empty body. -/
def specBlogDescription (body : GoStr) : GoStr :=
  let normalized := convertMarkdownLinksToPlainText
    (trimSpace (collapseSpaces (replaceNewlines body)))
  if body = [] then []
  else if 70 < normalized.length then normalized.take 70 ++ "...".toList
  else normalized

/-- C4 (confirmed): for a Blog entry, the derived frontmatter description
is the whitespace-normalized, link-stripped body truncated to at most 70
code points (runes, not bytes), with `...` appended exactly when the
normalized text exceeds 70 code points (giving 73 code points in total);
an empty body leaves the description unset (Go's zero value, the empty
string, which the serializer omits). -/
theorem c4_blog_description (page : Page) (config : Config)
    (title body : GoStr)
    (hblog : config.databaseType = "blog".toList) :
    (pageFrontmatter page config title body).description
      = specBlogDescription body
    ∧ (70 < (convertMarkdownLinksToPlainText
          (trimSpace (collapseSpaces (replaceNewlines body)))).length →
        ((pageFrontmatter page config title body).description).length
          = 73) := by
  have hd := pageFrontmatter_description page config title body
  have h3 : ("...".toList : GoStr).length = 3 := by decide
  constructor
  · rw [hd]
    by_cases hb : body = []
    · simp [hb, specBlogDescription]
    · rw [if_pos ⟨hblog, hb⟩]
      simp only [specBlogDescription, blogDescription]
      rw [if_neg hb]
  · intro hlen
    have hb : body ≠ [] := by
      intro he
      subst he
      revert hlen
      decide
    rw [hd, if_pos ⟨hblog, hb⟩]
    simp only [blogDescription]
    rw [if_pos hlen]
    rw [List.length_append, List.length_take, h3]
    omega

/-- Concrete page for the C4 witness. -/
def pageC4W : Page :=
  { id := "w4".toList, properties := [], createdTime := ⟨2023, 1, 1⟩ }

theorem c4_blog_description_witness :
    ({ databaseType := "blog".toList } : Config).databaseType
        = "blog".toList
    ∧ ((pageFrontmatter pageC4W { databaseType := "blog".toList }
          "t".toList "x".toList).description
        = specBlogDescription "x".toList
      ∧ (70 < (convertMarkdownLinksToPlainText
            (trimSpace (collapseSpaces (replaceNewlines "x".toList)))).length →
          ((pageFrontmatter pageC4W { databaseType := "blog".toList }
              "t".toList "x".toList).description).length = 73)) :=
  ⟨rfl, c4_blog_description pageC4W { databaseType := "blog".toList }
    "t".toList "x".toList rfl⟩

/-! ### Title resolution (claims C6, C10) -/

/-- Title resolution as the claim words it: the first candidate key that is
present AND yields a non-empty title wins. -/
def claimResolveTitle (page : Page) : Option GoStr :=
  ["title".toList, "Title".toList, "Name".toList, "titile".toList].findSome?
    (fun k =>
      match getProperty page k with
      | some v =>
        if titleOfProperty v ≠ [] then some (titleOfProperty v) else none
      | none => none)

/-- Concrete page for the C6 counterexample: the `title` key is present but
holds an empty title property, shadowing a non-empty `Title` key. -/
def pageShadowedTitle : Page :=
  { id := "p6".toList,
    properties :=
      [("title".toList, .titleProp []),
       ("Title".toList, .titleProp [⟨"Real".toList, []⟩])],
    createdTime := ⟨2023, 1, 1⟩ }

/-- C6, counterexample: on a page whose `title` key is present but empty
while `Title` holds the non-empty title `Real`, the claimed resolution
("first candidate present AND non-empty wins") yields `Real`, yet
`processPage` skips the entry: the chain stops at the first PRESENT key. -/
theorem c6_counterexample :
    claimResolveTitle pageShadowedTitle = some "Real".toList ∧
      processPage pageShadowedTitle (some []) (fun _ => none)
        { databaseType := "blog".toList } = none := by
  constructor
  · decide
  · decide

/-- C6 (amended): the title-extraction chain consults the keys `title`,
`Title`, `Name`, `titile` for PRESENCE in order: the first key present in
the property map decides the outcome — its value's first span's text when
it is a title property with at least one span, and the empty title
otherwise, even when a later candidate key holds a non-empty title.  The
entry is skipped (no file produced) exactly when the resolved title is
empty. -/
theorem c6_title_resolution (page : Page) (fetched : Option (List Block))
    (resolver : GoStr → Option GoStr) (config : Config) :
    resolveTitle page
      = (match ["title".toList, "Title".toList, "Name".toList,
            "titile".toList].findSome? (getProperty page) with
         | some v => titleOfProperty v
         | none => [])
    ∧ (processPage page fetched resolver config = none
        ↔ resolveTitle page = []) := by
  constructor
  · unfold resolveTitle
    cases h1 : getProperty page "title".toList <;>
      cases h2 : getProperty page "Title".toList <;>
        cases h3 : getProperty page "Name".toList <;>
          cases h4 : getProperty page "titile".toList <;>
            simp only [List.findSome?_cons, List.findSome?_nil,
              h1, h2, h3, h4]
  · by_cases h : resolveTitle page = []
    · simp [processPage, h]
    · simp [processPage, h]

/-- C10 (confirmed): a page whose title lives only under the typo key
`titile` is processed (not skipped), but `generateFilename` — which
consults only `title`, `Title`, `Name` — falls back to the page ID, so the
file name is the sanitized page ID plus `.md`. -/
theorem c10_typo_title_filename (page : Page)
    (fetched : Option (List Block)) (resolver : GoStr → Option GoStr)
    (rt : RichTextItem) (rts : List RichTextItem)
    (h1 : getProperty page "title".toList = none)
    (h2 : getProperty page "Title".toList = none)
    (h3 : getProperty page "Name".toList = none)
    (h4 : getProperty page "titile".toList
        = some (PropertyValue.titleProp (rt :: rts)))
    (h5 : rt.plainText ≠ []) :
    (processPage page fetched resolver
        { databaseType := "blog".toList }).isSome = true
    ∧ (processPage page fetched resolver
        { databaseType := "blog".toList }).map Prod.fst
      = some (sanitizeFilename page.id ++ ".md".toList) := by
  have htitle : resolveTitle page = rt.plainText := by
    unfold resolveTitle
    rw [h1, h2, h3, h4]
    rfl
  have hfile : generateFilename page
      = sanitizeFilename page.id ++ ".md".toList := by
    unfold generateFilename
    rw [h1, h2, h3]
    rfl
  have hne : ("blog".toList : GoStr) ≠ "diary".toList := by decide
  constructor
  · simp [processPage, htitle, h5]
  · simp [processPage, htitle, h5, hfile, hne]

/-- Concrete page for the C10 witness: only the typo key `titile`, and a
page ID containing a filesystem-invalid character. -/
def pageC10W : Page :=
  { id := "a/b".toList,
    properties := [("titile".toList, .titleProp [⟨"Typo".toList, []⟩])],
    createdTime := ⟨2024, 2, 3⟩ }

theorem c10_typo_title_filename_witness :
    getProperty pageC10W "title".toList = none
    ∧ getProperty pageC10W "Title".toList = none
    ∧ getProperty pageC10W "Name".toList = none
    ∧ getProperty pageC10W "titile".toList
        = some (PropertyValue.titleProp
            ((⟨"Typo".toList, []⟩ : RichTextItem) :: []))
    ∧ (⟨"Typo".toList, []⟩ : RichTextItem).plainText ≠ []
    ∧ ((processPage pageC10W none (fun _ => none)
          { databaseType := "blog".toList }).isSome = true
      ∧ (processPage pageC10W none (fun _ => none)
          { databaseType := "blog".toList }).map Prod.fst
        = some (sanitizeFilename pageC10W.id ++ ".md".toList)) :=
  ⟨by decide, by decide, by decide, by decide, by decide,
    c10_typo_title_filename pageC10W none (fun _ => none)
      ⟨"Typo".toList, []⟩ [] (by decide) (by decide) (by decide)
      (by decide) (by decide)⟩

/-! ### End-to-end scenario (claim C7) -/

/-- The C7 scenario page: title `First Post`, created 2023-01-01. -/
def pageFirstPost : Page :=
  { id := "abc123".toList,
    properties :=
      [("title".toList, .titleProp [⟨"First Post".toList, []⟩])],
    createdTime := ⟨2023, 1, 1⟩ }

/-- The C7 scenario body: a single paragraph `Hello world.`. -/
def firstPostBlocks : List Block :=
  [.paragraph [⟨"Hello world.".toList, []⟩]]

/-- C7, counterexample: the claimed prefix
`---\nid: abc123\ntitle: First Post\ndate: 2023-01-01\n---\n\nHello world.  \n\n`
is wrong on two counts: a Blog entry gets an auto-derived
`description: Hello world.` line between `title` and `date`, and the
trailing blank line of the body is collapsed away.  The produced content
does not begin with the claimed prefix. -/
theorem c7_counterexample :
    (processPage pageFirstPost (some firstPostBlocks) (fun _ => none)
        { databaseType := "blog".toList }).map Prod.snd
      = some "---\nid: abc123\ntitle: First Post\ndescription: Hello world.\ndate: 2023-01-01\n---\n\nHello world.  \n".toList
    ∧ ("---\nid: abc123\ntitle: First Post\ndescription: Hello world.\ndate: 2023-01-01\n---\n\nHello world.  \n".toList).take
          "---\nid: abc123\ntitle: First Post\ndate: 2023-01-01\n---\n\nHello world.  \n\n".toList.length
        ≠ "---\nid: abc123\ntitle: First Post\ndate: 2023-01-01\n---\n\nHello world.  \n\n".toList := by
  constructor
  · decide
  · decide

/-- C7 (amended): for the scenario entry (title `First Post`, category
Blog, one paragraph `Hello world.`, created 2023-01-01, page ID `abc123`),
the produced file is named `First Post.md` and its content is exactly
`---\nid: abc123\ntitle: First Post\ndescription: Hello world.\ndate: 2023-01-01\n---\n\nHello world.  \n`
(the auto-derived description line included, and a single trailing newline
after the body's hard-break spaces, the body's blank line having been
collapsed). -/
theorem c7_end_to_end :
    processPage pageFirstPost (some firstPostBlocks) (fun _ => none)
        { databaseType := "blog".toList }
      = some ("First Post.md".toList,
          "---\nid: abc123\ntitle: First Post\ndescription: Hello world.\ndate: 2023-01-01\n---\n\nHello world.  \n".toList) := by
  decide

/-! ### Fetch-failure robustness (claim C8) -/

theorem processPages_set_other :
    ∀ (config : Config) (resolver : GoStr → Option GoStr)
      (ps : List (Page × Option (List Block)))
      (i j : Nat) (x : Page × Option (List Block)), j ≠ i →
      (processDatabaseTypePages config resolver (ps.set i x)).get? j
        = (processDatabaseTypePages config resolver ps).get? j := by
  intro config resolver ps
  induction ps with
  | nil => intro i j x _; rfl
  | cons pr rest ih =>
    intro i j x hij
    cases i with
    | zero =>
      cases j with
      | zero => exact absurd rfl hij
      | succ j2 =>
        simp [List.set, processDatabaseTypePages]
    | succ i2 =>
      cases j with
      | zero => simp [List.set, processDatabaseTypePages]
      | succ j2 =>
        simp only [List.set, processDatabaseTypePages, List.get?]
        exact ih i2 j2 x (fun he => hij (by rw [he]))

theorem processPages_length :
    ∀ (config : Config) (resolver : GoStr → Option GoStr)
      (ps : List (Page × Option (List Block))),
      (processDatabaseTypePages config resolver ps).length = ps.length := by
  intro config resolver ps
  induction ps with
  | nil => rfl
  | cons pr rest ih => simp [processDatabaseTypePages, ih]

/-- C8 (confirmed): when the child-block fetch of an entry fails, its body
is the fixed placeholder string, the entry is still assembled and produces
a file (provided its title resolves), and the batch is unaffected: the
batch output has one entry per page regardless of fetch outcomes, and
changing one page's slot never changes any other slot's output. -/
theorem c8_fetch_failure (page : Page) (resolver : GoStr → Option GoStr)
    (config : Config) (ps : List (Page × Option (List Block)))
    (i j : Nat) (x : Page × Option (List Block))
    (htitle : resolveTitle page ≠ []) (hij : j ≠ i) :
    fetchedPageContent none resolver = placeholderContent
    ∧ (processPage page none resolver config).isSome = true
    ∧ (processDatabaseTypePages config resolver (ps.set i x)).get? j
        = (processDatabaseTypePages config resolver ps).get? j
    ∧ (processDatabaseTypePages config resolver ps).length = ps.length := by
  refine ⟨rfl, ?_, processPages_set_other config resolver ps i j x hij,
    processPages_length config resolver ps⟩
  simp [processPage, htitle]

/-- Concrete page for the C8 witness. -/
def pageC8W : Page :=
  { id := "w8".toList,
    properties := [("title".toList, .titleProp [⟨"W8".toList, []⟩])],
    createdTime := ⟨2023, 5, 6⟩ }

theorem c8_fetch_failure_witness :
    resolveTitle pageC8W ≠ []
    ∧ (1 : Nat) ≠ (0 : Nat)
    ∧ (fetchedPageContent none (fun _ => none) = placeholderContent
      ∧ (processPage pageC8W none (fun _ => none)
          { databaseType := "blog".toList }).isSome = true
      ∧ (processDatabaseTypePages { databaseType := "blog".toList }
            (fun _ => none)
            (([] : List (Page × Option (List Block))).set 0
              (pageC8W, none))).get? 1
        = (processDatabaseTypePages { databaseType := "blog".toList }
            (fun _ => none) ([] : List (Page × Option (List Block)))).get? 1
      ∧ (processDatabaseTypePages { databaseType := "blog".toList }
          (fun _ => none)
          ([] : List (Page × Option (List Block)))).length
        = ([] : List (Page × Option (List Block))).length) :=
  ⟨by decide, by decide,
    c8_fetch_failure pageC8W (fun _ => none)
      { databaseType := "blog".toList } [] 0 1 (pageC8W, none)
      (by decide) (by decide)⟩

/-! ### Divider and the blank-preservation rule (claim C9) -/

/-- C9 (confirmed): the divider block renders as the line `---␠␠` followed
by a blank line; that line trims to `---`, and the blank-preservation rule
of `processEmptyLines` fires after ANY line whose trimmed content is `---`
(whatever the loop state), so a single blank line following such a line —
in particular following a rendered divider — is kept. -/
theorem c9_divider_blank_preserved (resolver : GoStr → Option GoStr)
    (p : Option GoStr) (c : Nat) (l b : GoStr) (ls : List GoStr)
    (hl : trimSpace l = dashLine) (hb : trimSpace b = []) :
    renderBlock resolver Block.divider = "---  \n\n".toList
    ∧ trimSpace "---  ".toList = dashLine
    ∧ processEmptyLinesLoop p c (l :: b :: ls)
        = l :: b :: processEmptyLinesLoop (some b) 1 ls := by
  refine ⟨rfl, by decide, ?_⟩
  have hlne : trimSpace l ≠ [] := by
    rw [hl]
    exact dashLine_ne_nil
  rw [loop_cons_nonblank _ _ _ hlne,
    loop_cons_blank_first_dash _ hb (isDashPrev_some_of l hl)]

theorem c9_divider_blank_preserved_witness :
    trimSpace "---  ".toList = dashLine
    ∧ trimSpace ([] : GoStr) = []
    ∧ (renderBlock (fun _ => none) Block.divider = "---  \n\n".toList
      ∧ trimSpace "---  ".toList = dashLine
      ∧ processEmptyLinesLoop none 0
            ("---  ".toList :: ([] : GoStr) :: ["x".toList])
          = "---  ".toList :: ([] : GoStr) ::
              processEmptyLinesLoop (some []) 1 ["x".toList]) :=
  ⟨by decide, by decide,
    c9_divider_blank_preserved (fun _ => none) none 0 "---  ".toList []
      ["x".toList] (by decide) (by decide)⟩

end NotionToAstro
